import Mathlib

/-!
# Verification of the downspout scan-and-sync core

Shallow embedding of `src/server/src/libs/FtpScanner.ts` (class `FtpScanner`)
and the sync orchestrator (class `SyncController`) from the same source tree,
together with proofs about the properties claimed of them.

Conventions:
* Paths are Lean `String`s; JavaScript string operations are modelled by
  their `String` counterparts (`indexOf(p) == 0` becomes `String.isPrefixOf`,
  `substring(n)` becomes `String.drop n`).
* Asynchronous callbacks are modelled by explicit state passing: the scanner
  session is a `ScannerState` record, and each method of `FtpScanner`
  becomes a function on that record.  Invocations of the *original*
  (constructor-supplied) callbacks are recorded in the state, so "the
  completion callback was invoked" is observable; once the fields holding
  the callbacks are overwritten with no-ops (`finish`), further calls
  through those fields record nothing.
* `async.mapLimit(list, 1, ...)` is sequential iteration with error
  short-circuit: the first `iterDone(err)` stops the iteration and the
  final callback receives that error.
* The helper classes `FtpFile` and `Utils` are part of this repository but
  their sources are not available here; their small helpers
  (`appendSlash`, `equals`, `sortNewestFirst`, `sanitizeFtpPath`, the type
  constants) are modelled from the spec, as marked on each definition.
-/

namespace Downspout

/-! JavaScript string primitives, modelled on the character list backing
a `String` (all operations are structural, so concrete instances can be
settled by `decide`).  JS `.length`/`substring` count UTF-16 code units;
on the paths handled here they coincide with code points. -/

/-- JS `s.indexOf(p) == 0` / `s.startsWith(p)`. -/
def strStartsWith (s p : String) : Bool :=
  p.toList.isPrefixOf s.toList

/-- JS `s.endsWith(p)`. -/
def strEndsWith (s p : String) : Bool :=
  p.toList.isSuffixOf s.toList

/-- JS `s.length`. -/
def strLength (s : String) : Nat :=
  s.toList.length

/-- JS `s.substring(n)`. -/
def strDrop (s : String) (n : Nat) : String :=
  String.mk (s.toList.drop n)

/-- A single entry returned by the FTP listing client (`jsftp`):
a name, a numeric type code and, for directories, an optional
list of children.  Modelled from the spec's RemoteEntry:
"name, type ∈ \x7bfile, symlink, directory\x7d, optional children". -/
inductive RemoteEntry where
  | mk (name : String) (type : Nat) (children : Option (List RemoteEntry))
deriving Repr

def RemoteEntry.name : RemoteEntry → String
  | .mk n _ _ => n

def RemoteEntry.type : RemoteEntry → Nat
  | .mk _ t _ => t

def RemoteEntry.children : RemoteEntry → Option (List RemoteEntry)
  | .mk _ _ c => c

/-- An entry returned by the single-item `ftp.ls` call used for symlink
size resolution.  Only its presence and count are inspected by the code
under verification (`data.length != 1`, `data[0]`), so it is modelled as
a flat record of stat-like metadata (spec: "size, modification time"). -/
structure LsEntry where
  name : String
  size : Nat
deriving Repr, DecidableEq

/-- `FtpFile.FTP_TYPE_FILE` — numeric type code for a plain file.
Modelled from the spec (the class `FtpFile` is not in the available
sources); only distinctness of the three codes matters. -/
def FTP_TYPE_FILE : Nat := 0

/-- `FtpFile.FTP_TYPE_DIRECTORY` — numeric type code for a directory.
Modelled from the spec. -/
def FTP_TYPE_DIRECTORY : Nat := 1

/-- `FtpFile.FTP_TYPE_SYM_LINK` — numeric type code for a symbolic link.
Modelled from the spec. -/
def FTP_TYPE_SYM_LINK : Nat := 2

/-- The unit of work of the pipeline.  Modelled from the spec's
DiscoveredFile: `basePath`, `relativeDirectory` (slash-terminated),
`name`, `isSymLink`, optional `targetData` populated by symlink
resolution, and the orchestrator-owned `downloading` flag
(false on construction). -/
structure FtpFile where
  basePath : String
  relativeDirectory : String
  name : String
  isSymLink : Bool
  targetData : Option LsEntry
  downloading : Bool
deriving Repr, DecidableEq

/-- `FtpFile.appendSlash` — modelled from the spec: paths are
"slash-normalized, always trailing-slash terminated"; appends `/`
unless the string already ends with it. -/
def FtpFile.appendSlash (path : String) : String :=
  if strEndsWith path "/" then path else path ++ "/"

/-- `file.fullPath` — the absolute remote path of the file,
`basePath + relativeDirectory + name`.  Modelled from the spec's
identity rule. -/
def FtpFile.fullPath (f : FtpFile) : String :=
  f.basePath ++ f.relativeDirectory ++ f.name

/-- `FtpFile.equals` — modelled from the spec: "two DiscoveredFiles are
equal iff `basePath + relativeDirectory + name` match; used for all
deduplication decisions". -/
def FtpFile.equals (a b : FtpFile) : Bool :=
  decide (a.fullPath = b.fullPath)

/-! ## FtpScanner: session state machine

`FtpScanner` has fields `scanning`, `cancelled`, `timeout` (the armed
watchdog), the `ftp` connection, and the two callback fields set from the
constructor arguments.  A `ScannerState` mirrors them.  The callback fields
only ever hold either the constructor-supplied function or the no-op
installed by `finish`, so each is modelled by a `Bool` ("still the
original?"); calls that reach the original callbacks are recorded in
`completeCalls` / `fileFoundCalls`. -/

structure ScannerState where
  /-- `this.scanning` -/
  scanning : Bool
  /-- `this.cancelled` -/
  cancelled : Bool
  /-- whether `this.timeout` holds an armed watchdog timer
  (set by `setTimeout` in `startScan`; cleared only by `clearTimeout`,
  which the source never calls) -/
  timerArmed : Bool
  /-- whether `this.ftp` holds a live connection (`destroy` not yet called) -/
  ftpLive : Bool
  /-- `this.scanCompleteCallbackFunc` is still the constructor argument
  (true) or has been replaced by the no-op from `finish` (false) -/
  completeCbOriginal : Bool
  /-- `this.scanFileFoundCallbackFunc` is still the constructor argument -/
  fileFoundCbOriginal : Bool
  /-- arguments of every invocation of the constructor-supplied
  completion callback, in order: `(err?, files?)` -/
  completeCalls : List (Option String × Option (List FtpFile))
  /-- arguments of every invocation of the constructor-supplied
  file-found callback, in order -/
  fileFoundCalls : List FtpFile
deriving Repr, DecidableEq

/-- The state right after `new FtpScanner(cb1, cb2)`. -/
def ScannerState.init : ScannerState :=
  { scanning := false
    cancelled := false
    timerArmed := false
    ftpLive := false
    completeCbOriginal := true
    fileFoundCbOriginal := true
    completeCalls := []
    fileFoundCalls := [] }

/-- Invoking `this.scanCompleteCallbackFunc(err, files)`: reaches the
consumer (is recorded) only while the field still holds the original
callback; after the swap in `finish` it is a no-op. -/
def ScannerState.invokeCompleteCb (s : ScannerState)
    (err : Option String) (files : Option (List FtpFile)) : ScannerState :=
  if s.completeCbOriginal then
    { s with completeCalls := s.completeCalls ++ [(err, files)] }
  else s

/-- Invoking `this.scanFileFoundCallbackFunc(file)`. -/
def ScannerState.invokeFileFoundCb (s : ScannerState) (f : FtpFile) : ScannerState :=
  if s.fileFoundCbOriginal then
    { s with fileFoundCalls := s.fileFoundCalls ++ [f] }
  else s

/-- `FtpScanner.finish` (lines 189–197): flips `scanning` to false, swaps
both callbacks to no-ops, destroys the ftp connection.  Note: it does
NOT call `clearTimeout`, so `timerArmed` is untouched. -/
def ScannerState.finish (s : ScannerState) : ScannerState :=
  { s with scanning := false
           completeCbOriginal := false
           fileFoundCbOriginal := false
           ftpLive := false }

/-- `FtpScanner.scanComplete` (lines 181–187): calls `this.finish()`
first, then calls `this.scanCompleteCallbackFunc(err, files)` — i.e. the
field as it stands *after* the swap. -/
def ScannerState.scanComplete (s : ScannerState)
    (err : Option String) (files : Option (List FtpFile)) : ScannerState :=
  (s.finish).invokeCompleteCb err files

/-- `FtpScanner.cancel` (lines 209–213): sets `cancelled`, then `finish`. -/
def ScannerState.cancel (s : ScannerState) : ScannerState :=
  { s with cancelled := true }.finish

/-- `FtpScanner.timeoutCancelCallback` (lines 199–207): a guard on
`scanning`/`cancelled`, then `cancel`. -/
def ScannerState.timeoutCancelCallback (s : ScannerState) : ScannerState :=
  if !s.scanning || s.cancelled then s else s.cancel

/-- `FtpScanner.startScan` (lines 43–55, the synchronous prefix): throws
`"startScan called while scanning"` when `scanning` is already true;
otherwise sets `scanning`, arms the watchdog via `setTimeout`, and opens
the ftp connection. -/
def ScannerState.startScan (s : ScannerState) : Except String ScannerState :=
  if s.scanning then
    .error "startScan called while scanning"
  else
    .ok { s with scanning := true, timerArmed := true, ftpLive := true }

/-! ## FtpScanner.updateFileSizes (lines 143–179)

`async.mapLimit(list, 1, iter, done)` runs `iter` over the list strictly
sequentially (limit 1); the first `iterDone(err)` aborts the remaining
items and invokes `done(err)`.  The per-item body observes `this.cancelled`
at two points: on entry, and again inside the `ftp.ls` callback.  Those
observations are modelled by an oracle `flags : Nat → Bool × Bool` giving
the value of the `cancelled` flag at each of the two observation points of
item `i`; a session on which `cancel()` has already run has a constantly-true
oracle, since `cancelled` is monotone.  `ftp.ls(path, cb)` is modelled by an
oracle `ls : String → Option (List LsEntry)`, `none` meaning the callback
received an error.  The result is the pair of the value delivered to the
final callback (`Except` of the first error, or the mapped list) together
with the list of arguments passed to `this.scanFileFoundCallbackFunc`,
in order. -/

def updateFileSizesGo (flags : Nat → Bool × Bool)
    (ls : String → Option (List LsEntry)) :
    Nat → List FtpFile → Except String (List FtpFile) × List FtpFile
  | _, [] => (.ok [], [])
  | i, file :: rest =>
    if (flags i).1 then
      (.error "Scan cancelled", [])
    else if file.isSymLink = false then
      let r := updateFileSizesGo flags ls (i + 1) rest
      (match r.1 with
       | .ok fs => .ok (file :: fs)
       | .error e => .error e,
       file :: r.2)
    else
      match ls file.fullPath with
      | none =>
        if (flags i).2 then (.error "Scan cancelled", [])
        else (.error ("Error getting data for " ++ file.fullPath), [])
      | some data =>
        if (flags i).2 then (.error "Scan cancelled", [])
        else if data.length ≠ 1 then
          (.error ("Error getting data for " ++ file.fullPath), [])
        else
          let f := { file with targetData := data.head? }
          let r := updateFileSizesGo flags ls (i + 1) rest
          (match r.1 with
           | .ok fs => .ok (f :: fs)
           | .error e => .error e,
           f :: r.2)

/-- `FtpScanner.updateFileSizes(list, completedCallback)`; the first
component is what `completedCallback` receives, the second the sequence
of file-found callback invocations made along the way. -/
def updateFileSizes (flags : Nat → Bool × Bool)
    (ls : String → Option (List LsEntry)) (list : List FtpFile) :
    Except String (List FtpFile) × List FtpFile :=
  updateFileSizesGo flags ls 0 list

/-! ## SyncController (download queue orchestrator)

The orchestrator owns `downloadQueue : FtpFile[]`.  `FtpDownloader.start`
is not among the available sources; per the spec, `downloading` is "true
exactly while a transfer for this file is in flight", so starting a
transfer sets the chosen entry's flag (modelled from the spec).  The
in-place mutation of the entry referenced by `getNextFileToDownload` is
modelled by flipping the flag of the first non-downloading entry — which
is exactly the entry `getNextFileToDownload` returns. -/

/-- Number of queue entries currently downloading. -/
def countDownloading (q : List FtpFile) : Nat :=
  (q.filter (fun f => f.downloading)).length

/-- Number of queue entries not currently downloading. -/
def countNotDownloading (q : List FtpFile) : Nat :=
  (q.filter (fun f => f.downloading = false)).length

/-- The loop of `SyncController.getNextFileToDownload` (lines 352–371):
walks the queue accumulating `downloadingCount` and the first entry with
`downloading == false`. -/
def getNextAux : List FtpFile → Nat → Option FtpFile → Nat × Option FtpFile
  | [], c, n => (c, n)
  | f :: rest, c, n =>
    if f.downloading = false then
      getNextAux rest c (if n.isNone then some f else n)
    else
      getNextAux rest (c + 1) n

/-- `SyncController.getNextFileToDownload`: the first non-downloading
entry, but only when the downloading count is below
`config.downloads.countMax` (here `countMax`). -/
def getNextFileToDownload (countMax : Nat) (q : List FtpFile) : Option FtpFile :=
  let r := getNextAux q 0 none
  if r.1 < countMax then r.2 else none

/-- Flip the `downloading` flag of the first non-downloading entry: the
effect on the queue of `FtpDownloader.start` on the entry returned by
`getNextFileToDownload` (modelled from the spec, see above). -/
def markFirstNotDownloading : List FtpFile → List FtpFile
  | [] => []
  | f :: rest =>
    if f.downloading = false then { f with downloading := true } :: rest
    else f :: markFirstNotDownloading rest

theorem countNotDownloading_markFirst (q : List FtpFile)
    (h : ∃ f ∈ q, f.downloading = false) :
    countNotDownloading (markFirstNotDownloading q) < countNotDownloading q := by
  induction q with
  | nil => simp at h
  | cons f rest ih =>
    by_cases hf : f.downloading = false
    · simp [markFirstNotDownloading, hf, countNotDownloading, List.filter]
    · obtain ⟨g, hg, hgd⟩ := h
      rcases List.mem_cons.mp hg with hg | hg
      · exact absurd (hg ▸ hgd) hf
      · have := ih ⟨g, hg, hgd⟩
        simp only [markFirstNotDownloading, if_neg hf]
        simpa [countNotDownloading, List.filter, hf] using this

/-- If `getNextFileToDownload` returns a file, the queue has a
non-downloading entry. -/
theorem getNextAux_some_mem (q : List FtpFile) :
    ∀ c n, (getNextAux q c n).2.isSome → n.isSome = false →
      ∃ f ∈ q, f.downloading = false := by
  induction q with
  | nil => intro c n h hn; simp [getNextAux] at h; rw [h] at hn; simp at hn
  | cons f rest ih =>
    intro c n h hn
    by_cases hf : f.downloading = false
    · exact ⟨f, List.mem_cons_self .., hf⟩
    · simp only [getNextAux, if_neg hf] at h
      obtain ⟨g, hg, hgd⟩ := ih _ _ h hn
      exact ⟨g, List.mem_cons_of_mem _ hg, hgd⟩

/-- `SyncController.downloadNextInQueue` (lines 425–433): repeatedly take
the next eligible file and start its transfer, until none is eligible. -/
def downloadNextInQueue (countMax : Nat) (q : List FtpFile) : List FtpFile :=
  match h : getNextFileToDownload countMax q with
  | none => q
  | some _ => downloadNextInQueue countMax (markFirstNotDownloading q)
termination_by countNotDownloading q
decreasing_by
  refine countNotDownloading_markFirst q ?_
  refine getNextAux_some_mem q 0 none ?_ rfl
  unfold getNextFileToDownload at h
  by_cases hc : (getNextAux q 0 none).1 < countMax
  · simp only [hc, if_true] at h; simp [h]
  · simp [hc] at h

/-- `SyncController.removeFileFromQueue` (lines 379–385): removes the
entries that are (reference-)equal to the completed file; modelled by
structural equality. -/
def removeFileFromQueue (f : FtpFile) (q : List FtpFile) : List FtpFile :=
  q.filter (fun x => x ≠ f)

/-- `SyncController.scannerFileFound` (lines 323–336).
`alreadyDownloaded` is the result of the `fs.existsSync` check in
`fileAlreadyDownloaded` (an external-filesystem oracle); when true the
file is routed to the remote delete queue and the download queue is
untouched.  Otherwise the file is appended only if no equal file (by
`FtpFile.equals`) is queued, and the download loop is kicked. -/
def scannerFileFound (countMax : Nat) (alreadyDownloaded : Bool)
    (f : FtpFile) (q : List FtpFile) : List FtpFile :=
  if alreadyDownloaded then q
  else if q.any (fun other => f.equals other) then q
  else downloadNextInQueue countMax (q ++ [f])

/-- `SyncController.downloadDone` (lines 435–451): independently of
`err`, the file is removed from the queue and the download loop is
kicked (the remote-delete handoff and the notification touch no queue
state). -/
def downloadDone (countMax : Nat) (_err : Bool) (f : FtpFile)
    (q : List FtpFile) : List FtpFile :=
  downloadNextInQueue countMax (removeFileFromQueue f q)

/-- The queue-mutating events the orchestrator reacts to. -/
inductive SyncEvent where
  | fileFound (alreadyDownloaded : Bool) (f : FtpFile)
  | downloadDone (err : Bool) (f : FtpFile)
deriving Repr

/-- One orchestrator step. -/
def stepSync (countMax : Nat) (q : List FtpFile) : SyncEvent → List FtpFile
  | .fileFound a f => scannerFileFound countMax a f q
  | .downloadDone e f => downloadDone countMax e f q

/-- The queue after a sequence of events, starting from the empty queue
of a freshly constructed `SyncController`. -/
def runSync (countMax : Nat) (events : List SyncEvent) : List FtpFile :=
  events.foldl (stepSync countMax) []

/-- Files handed to `scannerFileFound` come from the scanner, whose
`FtpFile` constructor leaves `downloading` false (spec: the flag is
"mutated only by the orchestrator"). -/
def eventWellFormed : SyncEvent → Prop
  | .fileFound _ f => f.downloading = false
  | .downloadDone _ _ => True

/-! ## FtpScanner.processFilesJSON (lines 112–134)

Depth-first flattening of the nested listing into `FtpFile`s, threading
the shared `outList` accumulator.  The source mutates `outList` in place
and ignores the return value of recursive calls; at `depth == 0` it
returns early leaving the accumulator untouched.  The `FtpFile`
constructor call `new FtpFile(basePath, relativePath, file)` (class not
among the available sources) is modelled from the spec: it records the
base path, the slash-terminated relative directory, the leaf name and
whether the entry is a symlink; `targetData` starts absent and
`downloading` false. -/

mutual

def processFilesJSON (data : List RemoteEntry) (basePath : String)
    (depth : Nat) (relativePath : String) (outList : List FtpFile) :
    List FtpFile :=
  let rp := FtpFile.appendSlash relativePath
  if depth = 0 then outList
  else processFilesLoop data basePath depth rp outList
termination_by (sizeOf data, 1)

/-- The `for (let file of data)` loop body of `processFilesJSON`;
`rp` is the already slash-terminated relative path. -/
def processFilesLoop (data : List RemoteEntry) (basePath : String)
    (depth : Nat) (rp : String) (outList : List FtpFile) : List FtpFile :=
  match data with
  | [] => outList
  | .mk name type children :: rest =>
    let outList2 :=
      if type = FTP_TYPE_SYM_LINK ∨ type = FTP_TYPE_FILE then
        outList ++ [⟨basePath, rp, name, decide (type = FTP_TYPE_SYM_LINK),
                     none, false⟩]
      else if type = FTP_TYPE_DIRECTORY then
        match children with
        | some cs => processFilesJSON cs basePath (depth - 1) (rp ++ name) outList
        | none => outList
      else outList
    processFilesLoop rest basePath depth rp outList2
termination_by (sizeOf data, 0)

end

/-- Specification-side collector: every file/symlink candidate in the
whole tree, paired with the number of directories between it and the
root of the listing (0 = found directly in `data`).  Follows the same
traversal order and relative-path accumulation as `processFilesJSON`,
but without any depth budget. -/
def allCandidatesLoop : List RemoteEntry → String → String → List (Nat × FtpFile)
  | [], _, _ => []
  | .mk name type children :: rest, basePath, rp =>
    (if type = FTP_TYPE_SYM_LINK ∨ type = FTP_TYPE_FILE then
       [(0, ⟨basePath, rp, name, decide (type = FTP_TYPE_SYM_LINK), none, false⟩)]
     else if type = FTP_TYPE_DIRECTORY then
       match children with
       | some cs =>
         (allCandidatesLoop cs basePath (FtpFile.appendSlash (rp ++ name))).map
           (fun x => (x.1 + 1, x.2))
       | none => []
     else []) ++ allCandidatesLoop rest basePath rp

/-- All candidates of a listing, with the relative path treated exactly
as by `processFilesJSON` on entry. -/
def allCandidates (data : List RemoteEntry) (basePath : String)
    (relativePath : String) : List (Nat × FtpFile) :=
  allCandidatesLoop data basePath (FtpFile.appendSlash relativePath)

/-! ## SyncController.getDestinationDirectory (lines 399–420) -/

/-- One entry of `config.pathMappings`. -/
structure PathMapping where
  remotePath : String
  localPath : String
deriving Repr, DecidableEq

/-- Characters that are unsafe in a filesystem path segment.
`Utils.sanitizeFtpPath` is repository code not among the available
sources; the exact character set is irrelevant to the claims. -/
def unsafeFtpChars : List Char := ['<', '>', ':', '"', '\\', '|', '?', '*']

/-- `Utils.sanitizeFtpPath` — modelled from the spec: "filesystem-unsafe
characters sanitized out of every path segment".  The path is split at
`/`, each segment is cleaned, empty segments disappear, and a trailing
slash is preserved (the spec's worked destination examples fix this
joining behaviour: sanitizing `/movies/` yields `movies/`). -/
def sanitizeFtpPath (path : String) : String :=
  let segs :=
    ((path.toList.splitOn '/').map
        (fun seg => seg.filter (fun c => !unsafeFtpChars.contains c))).filter
      (fun seg => seg ≠ [])
  String.mk
    (List.intercalate ['/'] segs ++ (if strEndsWith path "/" then ['/'] else []))

/-- The `for (pathMap of config.pathMappings)` loop of
`getDestinationDirectory`: the JS test `indexOf(pathMapDirectory) == 0`
is the prefix test, and `substring(pathMapDirectory.length)` drops the
matched prefix. -/
def getDestinationDirectoryGo : List PathMapping → String → Option String
  | [], _ => none
  | pathMap :: rest, remoteDirectory =>
    let pathMapDirectory := FtpFile.appendSlash pathMap.remotePath
    if strStartsWith remoteDirectory pathMapDirectory then
      some (FtpFile.appendSlash pathMap.localPath ++
        sanitizeFtpPath (strDrop remoteDirectory (strLength pathMapDirectory)))
    else getDestinationDirectoryGo rest remoteDirectory

/-- `SyncController.getDestinationDirectory(file)`: first matching path
mapping wins, otherwise fall back to `config.localSyncRoot`. -/
def getDestinationDirectory (pathMappings : List PathMapping)
    (localSyncRoot : String) (file : FtpFile) : String :=
  match getDestinationDirectoryGo pathMappings file.relativeDirectory with
  | some result => result
  | none =>
    FtpFile.appendSlash localSyncRoot ++ sanitizeFtpPath file.relativeDirectory

/-- Destination resolution as worded by the spec: "iterate path mappings
in configured order; the first mapping whose remote prefix is a
directory-bounded prefix of the file's relative directory wins, producing
`localPrefix + (relativeDirectory with the matched remote prefix
stripped)`, ... If no mapping matches, fall back to
`defaultLocalRoot + sanitize(relativeDirectory)`". -/
def getDestinationDirectorySpec (pathMappings : List PathMapping)
    (localSyncRoot : String) (file : FtpFile) : String :=
  match pathMappings.find?
      (fun m => strStartsWith file.relativeDirectory (FtpFile.appendSlash m.remotePath)) with
  | some m =>
    FtpFile.appendSlash m.localPath ++
      sanitizeFtpPath
        (strDrop file.relativeDirectory (strLength (FtpFile.appendSlash m.remotePath)))
  | none =>
    FtpFile.appendSlash localSyncRoot ++ sanitizeFtpPath file.relativeDirectory

/-! ## Theorems: scanner session lifecycle -/

/-- The state produced by a successful `startScan` on a fresh session. -/
def ScannerState.started : ScannerState :=
  { ScannerState.init with scanning := true, timerArmed := true, ftpLive := true }

theorem startScan_init_eq : ScannerState.init.startScan = .ok ScannerState.started := rfl

/-- C1: the claim says the constructor-supplied completion callback is
invoked exactly once per completed scan.  In the source, `scanComplete`
calls `finish()` — which overwrites `scanCompleteCallbackFunc` with a
no-op — *before* reading and calling that very field, so the
constructor-supplied callback is invoked zero times: every completion
path leaves the record of its invocations unchanged, and in particular a
scan that starts and completes successfully never reports back. -/
theorem scanComplete_skips_completion_callback :
    (∀ (s : ScannerState) (err : Option String) (files : Option (List FtpFile)),
      (s.scanComplete err files).completeCalls = s.completeCalls) ∧
    (ScannerState.started.scanComplete none (some [])).completeCalls = [] := by
  constructor
  · intro s err files
    simp [ScannerState.scanComplete, ScannerState.finish, ScannerState.invokeCompleteCb]
  · rfl

/-- C2 counterexample: completing a scan (a teardown path — here an
error completion on a freshly started session) leaves the watchdog timer
armed: `finish` never calls `clearTimeout`. -/
theorem completion_leaves_timer_armed :
    (ScannerState.started.scanComplete (some "some ftp error") none).timerArmed = true := rfl

/-- C2 amended: no teardown path (success completion, error completion,
or explicit cancel) disarms the watchdog timer — the source never calls
`clearTimeout` — but a previously armed watchdog firing against a
torn-down session is harmless, because `timeoutCancelCallback` returns
immediately once `scanning` is false or `cancelled` is true. -/
theorem teardown_keeps_timer_armed_but_watchdog_inert :
    ∀ (s : ScannerState) (err : Option String) (files : Option (List FtpFile)),
      (s.scanComplete err files).timerArmed = s.timerArmed ∧
      s.cancel.timerArmed = s.timerArmed ∧
      s.finish.timerArmed = s.timerArmed ∧
      (s.scanComplete err files).timeoutCancelCallback = s.scanComplete err files ∧
      s.cancel.timeoutCancelCallback = s.cancel := by
  intro s err files
  refine ⟨rfl, rfl, rfl, ?_, ?_⟩
  · simp [ScannerState.scanComplete, ScannerState.invokeCompleteCb,
      ScannerState.timeoutCancelCallback, ScannerState.finish]
  · simp [ScannerState.cancel, ScannerState.timeoutCancelCallback, ScannerState.finish]

/-- C6: calling `startScan` while `scanning` is true throws
`"startScan called while scanning"` — a hard, immediate failure that
produces no new scan state. -/
theorem startScan_while_scanning_throws :
    ∀ s : ScannerState, s.scanning = true →
      s.startScan = .error "startScan called while scanning" := by
  intro s h
  simp [ScannerState.startScan, h]

/-- Witness for C6: a freshly started session refuses a second scan. -/
theorem startScan_while_scanning_throws_witness :
    ScannerState.started.scanning = true ∧
      ScannerState.started.startScan = .error "startScan called while scanning" :=
  ⟨rfl, startScan_while_scanning_throws ScannerState.started rfl⟩

/-- C10: once the session is no longer scanning or has been cancelled,
a firing of the watchdog timer is a no-op: the state (including the
records of callback invocations) is unchanged. -/
theorem timeoutCancelCallback_inert_after_teardown :
    ∀ s : ScannerState, s.scanning = false ∨ s.cancelled = true →
      s.timeoutCancelCallback = s := by
  intro s h
  rcases h with h | h <;> simp [ScannerState.timeoutCancelCallback, h]

/-- Witness for C10: a fresh (never started) session ignores a watchdog
firing. -/
theorem timeoutCancelCallback_inert_after_teardown_witness :
    (ScannerState.init.scanning = false ∨ ScannerState.init.cancelled = true) ∧
      ScannerState.init.timeoutCancelCallback = ScannerState.init :=
  ⟨Or.inl rfl, timeoutCancelCallback_inert_after_teardown ScannerState.init (Or.inl rfl)⟩

/-! ## Theorems: cancellation and size resolution -/

/-- What `scanComplete` receives from the `updateFileSizes` completion
callback (lines 94–97): the first error, or the resolved list. -/
def ScannerState.completeWith (s : ScannerState)
    (r : Except String (List FtpFile)) : ScannerState :=
  match r with
  | .ok fs => s.scanComplete none (some fs)
  | .error e => s.scanComplete (some e) none

/-- A fixed symlink file for concrete instances. -/
def sampleSymlink : FtpFile :=
  ⟨"/seedbox/toUpload", "/tv/showA/", "episode 01.avi", true, none, false⟩

/-- C5 counterexample: cancel a started session while a size-resolution
pass is in flight.  The in-flight pass does abort with `"Scan cancelled"`,
but when that error reaches `scanComplete`, the completion callback
supplied at construction records zero invocations — not the exactly one
invocation with a cancellation error that the claim asserts. -/
theorem cancelled_scan_completion_never_reaches_consumer :
    updateFileSizes (fun _ => (true, true)) (fun _ => none) [sampleSymlink] =
      (.error "Scan cancelled", []) ∧
    (ScannerState.started.cancel.completeWith (.error "Scan cancelled")).completeCalls
      = [] := ⟨rfl, rfl⟩

/-- C5 amended: after `cancel()`, any size-resolution step in flight
observes the cancelled flag before invoking its callback and
short-circuits with a `"Scan cancelled"` error rather than completing
normally (both at the head of an item and inside a pending `ftp.ls`
response), and no further file-found events are emitted — but the
completion callback supplied at construction is not invoked at all:
`cancel`'s teardown replaced it with a no-op, so the later completion
delivers the cancellation error to the no-op and the consumer never
learns of it. -/
theorem cancel_short_circuits_size_resolution :
    ∀ (ls : String → Option (List LsEntry)) (files : List FtpFile)
      (flags : Nat → Bool × Bool) (s : ScannerState) (f : FtpFile)
      (err : Option String) (fl : Option (List FtpFile)),
      (files ≠ [] → (∀ i, flags i = (true, true)) →
        updateFileSizes flags ls files = (.error "Scan cancelled", [])) ∧
      (∀ (g : FtpFile) (rest : List FtpFile), g.isSymLink = true →
        (flags 0).2 = true →
        updateFileSizes flags ls (g :: rest) = (.error "Scan cancelled", [])) ∧
      s.cancel.invokeFileFoundCb f = s.cancel ∧
      (s.cancel.scanComplete err fl).completeCalls = s.cancel.completeCalls := by
  intro ls files flags s f err fl
  refine ⟨?_, ?_, ?_, ?_⟩
  · intro hne hflags
    match files with
    | [] => exact absurd rfl hne
    | g :: rest =>
      simp [updateFileSizes, updateFileSizesGo, hflags 0]
  · intro g rest hsym hflag
    simp only [updateFileSizes, updateFileSizesGo, hsym]
    cases h1 : (flags 0).1 with
    | true => simp
    | false => cases hls : ls g.fullPath <;> simp [hflag]
  · simp [ScannerState.cancel, ScannerState.finish, ScannerState.invokeFileFoundCb]
  · simp [ScannerState.cancel, ScannerState.finish, ScannerState.scanComplete,
      ScannerState.invokeCompleteCb]

/-- Witness for C5 (amended): the concrete cancelled session of the
counterexample scenario, with every hypothesis discharged. -/
theorem cancel_short_circuits_size_resolution_witness :
    updateFileSizes (fun _ => (true, true)) (fun _ => none) [sampleSymlink] =
      (.error "Scan cancelled", []) :=
  (cancel_short_circuits_size_resolution (fun _ => none) [sampleSymlink]
    (fun _ => (true, true)) ScannerState.started sampleSymlink none none).1
    (by simp) (fun _ => rfl)

/-- `resolvesOk ls f`: the size-resolution step for `f` succeeds — it is
a plain file, or its single-item listing returns exactly one entry. -/
def resolvesOk (ls : String → Option (List LsEntry)) (f : FtpFile) : Prop :=
  f.isSymLink = false ∨ ∃ d, ls f.fullPath = some [d]

/-- The file as emitted by a successful size-resolution step. -/
def resolveFile (ls : String → Option (List LsEntry)) (f : FtpFile) : FtpFile :=
  if f.isSymLink then { f with targetData := (ls f.fullPath).bind List.head? }
  else f

theorem updateFileSizesGo_broken_symlink
    (ls : String → Option (List LsEntry)) (bad : FtpFile)
    (post : List FtpFile) (hsym : bad.isSymLink = true)
    (hbroken : ∀ data, ls bad.fullPath = some data → data.length ≠ 1) :
    ∀ (pre : List FtpFile) (i : Nat), (∀ f ∈ pre, resolvesOk ls f) →
      updateFileSizesGo (fun _ => (false, false)) ls i (pre ++ bad :: post) =
        (.error ("Error getting data for " ++ bad.fullPath),
          pre.map (resolveFile ls)) := by
  intro pre
  induction pre with
  | nil =>
    intro i _
    simp only [List.nil_append, updateFileSizesGo, hsym, List.map_nil]
    cases hls : ls bad.fullPath with
    | none => simp
    | some data => simp [hbroken data hls]
  | cons f pre ih =>
    intro i hok
    have hf := hok f (List.mem_cons_self ..)
    have hpre : ∀ g ∈ pre, resolvesOk ls g :=
      fun g hg => hok g (List.mem_cons_of_mem _ hg)
    by_cases hsymf : f.isSymLink = true
    · have hd : ∃ d, ls f.fullPath = some [d] := by
        rcases hf with hplain | hd
        · rw [hsymf] at hplain; exact absurd hplain (by simp)
        · exact hd
      obtain ⟨d, hd⟩ := hd
      have hrec := ih (i + 1) hpre
      simp only [List.cons_append, updateFileSizesGo, hsymf, hd, List.append_eq]
      rw [hrec]
      simp [resolveFile, hsymf, hd]
    · have hplain : f.isSymLink = false := by
        exact Bool.not_eq_true _ ▸ (by simpa using hsymf)
      have hrec := ih (i + 1) hpre
      simp only [List.cons_append, updateFileSizesGo, hplain, List.append_eq]
      rw [hrec]
      simp [resolveFile, hplain]

/-- C7: during size resolution, a symlink whose single-item listing
errors (`none`) or returns a number of entries different from one makes
the whole `updateFileSizes` pass terminate with
`"Error getting data for <path>"`: the entries after it are never
processed (no file-found events beyond the prefix), and the error is
exactly what the completion continuation hands to `scanComplete` as the
scan's overall error. -/
theorem broken_symlink_aborts_size_resolution :
    ∀ (ls : String → Option (List LsEntry)) (pre : List FtpFile)
      (bad : FtpFile) (post : List FtpFile) (s : ScannerState),
      (∀ f ∈ pre, resolvesOk ls f) → bad.isSymLink = true →
      (∀ data, ls bad.fullPath = some data → data.length ≠ 1) →
      updateFileSizes (fun _ => (false, false)) ls (pre ++ bad :: post) =
        (.error ("Error getting data for " ++ bad.fullPath),
          pre.map (resolveFile ls)) ∧
      s.completeWith
          (updateFileSizes (fun _ => (false, false)) ls (pre ++ bad :: post)).1 =
        s.scanComplete (some ("Error getting data for " ++ bad.fullPath)) none := by
  intro ls pre bad post s hok hsym hbroken
  have h := updateFileSizesGo_broken_symlink ls bad post hsym hbroken pre 0 hok
  refine ⟨h, ?_⟩
  rw [updateFileSizes, h]
  rfl

/-- Witness for C7: one plain file resolves and is emitted, then a
symlink whose listing errors kills the pass; the trailing entry is never
emitted. -/
theorem broken_symlink_aborts_size_resolution_witness :
    updateFileSizes (fun _ => (false, false)) (fun _ => none)
        ([⟨"/b", "/tv/", "plain.avi", false, none, false⟩] ++
          sampleSymlink :: [⟨"/b", "/tv/", "later.avi", false, none, false⟩]) =
      (.error ("Error getting data for " ++ sampleSymlink.fullPath),
        [⟨"/b", "/tv/", "plain.avi", false, none, false⟩]) :=
  (broken_symlink_aborts_size_resolution (fun _ => none)
    [⟨"/b", "/tv/", "plain.avi", false, none, false⟩] sampleSymlink
    [⟨"/b", "/tv/", "later.avi", false, none, false⟩] ScannerState.started
    (by intro f hf; simp at hf; rw [hf]; exact Or.inl rfl) rfl
    (by intro data hdata; cases hdata)).1

/-! ## Theorems: download queue concurrency cap and deduplication -/

theorem getNextAux_spec (q : List FtpFile) :
    ∀ (c : Nat) (n : Option FtpFile),
      getNextAux q c n =
        (c + countDownloading q, n.or (q.find? (fun f => !f.downloading))) := by
  induction q with
  | nil => intro c n; simp [getNextAux, countDownloading]
  | cons f rest ih =>
    intro c n
    by_cases hf : f.downloading = false
    · simp only [getNextAux, if_pos hf, ih]
      cases n <;> simp [countDownloading, List.find?, hf]
    · have hf' : f.downloading = true := by simpa using hf
      simp only [getNextAux, if_neg hf, ih]
      cases n <;> simp [countDownloading, List.find?, hf'] <;> omega

/-- The closed form of `getNextFileToDownload`: the first entry with
`downloading == false`, guarded by the concurrency cap. -/
theorem getNextFileToDownload_eq (countMax : Nat) (q : List FtpFile) :
    getNextFileToDownload countMax q =
      if countDownloading q < countMax then q.find? (fun f => !f.downloading)
      else none := by
  simp [getNextFileToDownload, getNextAux_spec]

theorem countDownloading_markFirst_le (q : List FtpFile) :
    countDownloading (markFirstNotDownloading q) ≤ countDownloading q + 1 := by
  induction q with
  | nil => simp [markFirstNotDownloading]
  | cons f rest ih =>
    by_cases hf : f.downloading = false
    · simp [markFirstNotDownloading, hf, countDownloading, List.filter]
    · have hf' : f.downloading = true := by simpa using hf
      simp only [markFirstNotDownloading, if_neg hf]
      simp [countDownloading, List.filter, hf'] at ih ⊢
      omega

theorem countDownloading_downloadNextInQueue (countMax : Nat) :
    ∀ q : List FtpFile, countDownloading q ≤ countMax →
      countDownloading (downloadNextInQueue countMax q) ≤ countMax := by
  intro q
  induction q using downloadNextInQueue.induct countMax with
  | case1 q hnone =>
    intro h
    rw [downloadNextInQueue, hnone]
    exact h
  | case2 q f hsome ih =>
    intro _
    rw [downloadNextInQueue, hsome]
    refine ih ?_
    rw [getNextFileToDownload_eq] at hsome
    by_cases hc : countDownloading q < countMax
    · have := countDownloading_markFirst_le q
      omega
    · rw [if_neg hc] at hsome; cases hsome

/-- A sublist has no more downloading entries. -/
theorem countDownloading_sublist {q₁ q₂ : List FtpFile} (h : q₁.Sublist q₂) :
    countDownloading q₁ ≤ countDownloading q₂ :=
  (h.filter _).length_le

theorem countDownloading_append (q₁ q₂ : List FtpFile) :
    countDownloading (q₁ ++ q₂) = countDownloading q₁ + countDownloading q₂ := by
  simp [countDownloading]

/-- One orchestrator event keeps the downloading count within the cap. -/
theorem countDownloading_stepSync (countMax : Nat) (q : List FtpFile)
    (e : SyncEvent) (hq : countDownloading q ≤ countMax)
    (he : eventWellFormed e) :
    countDownloading (stepSync countMax q e) ≤ countMax := by
  cases e with
  | fileFound a f =>
    by_cases ha : a = true
    · simpa [stepSync, scannerFileFound, ha] using hq
    · have ha' : a = false := by simpa using ha
      by_cases hmem : q.any (fun other => f.equals other) = true
      · simpa [stepSync, scannerFileFound, ha', hmem] using hq
      · have hf : f.downloading = false := he
        have hcount : countDownloading (q ++ [f]) ≤ countMax := by
          rw [countDownloading_append]
          simp [countDownloading, List.filter, hf]
          exact hq
        simp only [stepSync, scannerFileFound, ha', Bool.false_eq_true, if_false,
          hmem, if_neg]
        simpa [hmem] using countDownloading_downloadNextInQueue countMax _ hcount
  | downloadDone err f =>
    have hrem : countDownloading (removeFileFromQueue f q) ≤ countMax :=
      le_trans (countDownloading_sublist (List.filter_sublist q)) hq
    exact countDownloading_downloadNextInQueue countMax _ hrem

theorem countDownloading_foldl (countMax : Nat) :
    ∀ (events : List SyncEvent) (q : List FtpFile),
      countDownloading q ≤ countMax → (∀ e ∈ events, eventWellFormed e) →
      countDownloading (events.foldl (stepSync countMax) q) ≤ countMax := by
  intro events
  induction events with
  | nil => intro q hq _; simpa using hq
  | cons e rest ih =>
    intro q hq he
    simp only [List.foldl_cons]
    exact ih _ (countDownloading_stepSync countMax q e hq
        (he e (List.mem_cons_self ..)))
      (fun x hx => he x (List.mem_cons_of_mem _ hx))

/-- C3: (a) `getNextFileToDownload` returns the first entry with
`downloading == false` exactly when the count of downloading entries is
below the configured cap, and `none` otherwise; (b) starting from the
empty queue, after any sequence of file-found and download-completed
events (file-found events carry scanner-fresh files, whose `downloading`
flag is false) the number of queue entries with `downloading == true`
never exceeds the cap. -/
theorem downloading_count_bounded_by_cap :
    ∀ (countMax : Nat) (q : List FtpFile) (events : List SyncEvent),
      (getNextFileToDownload countMax q =
        if countDownloading q < countMax then q.find? (fun f => !f.downloading)
        else none) ∧
      ((∀ e ∈ events, eventWellFormed e) →
        countDownloading (runSync countMax events) ≤ countMax) := by
  intro countMax q events
  refine ⟨getNextFileToDownload_eq countMax q, ?_⟩
  intro he
  exact countDownloading_foldl countMax events [] (by simp [countDownloading]) he

/-- Witness for C3: a cap of one with two discoveries and one completed
download. -/
theorem downloading_count_bounded_by_cap_witness :
    countDownloading
        (runSync 1
          [.fileFound false sampleSymlink,
           .fileFound false ⟨"/b", "/tv/", "other.avi", false, none, false⟩,
           .downloadDone false { sampleSymlink with downloading := true }]) ≤ 1 :=
  (downloading_count_bounded_by_cap 1 [] _).2 (by
    intro e he
    simp only [List.mem_cons, List.not_mem_nil, or_false] at he
    rcases he with h | h | h <;> subst h <;> first | rfl | trivial)

/-- No two queue entries share an identity (`basePath + relativeDirectory
+ name`). -/
def queueNoDupIds (q : List FtpFile) : Prop :=
  (q.map FtpFile.fullPath).Nodup

theorem map_fullPath_markFirst (q : List FtpFile) :
    (markFirstNotDownloading q).map FtpFile.fullPath = q.map FtpFile.fullPath := by
  induction q with
  | nil => rfl
  | cons f rest ih =>
    by_cases hf : f.downloading = false
    · simp [markFirstNotDownloading, hf, FtpFile.fullPath]
    · simp [markFirstNotDownloading, hf, ih]

theorem map_fullPath_downloadNextInQueue (countMax : Nat) :
    ∀ q : List FtpFile,
      (downloadNextInQueue countMax q).map FtpFile.fullPath =
        q.map FtpFile.fullPath := by
  intro q
  induction q using downloadNextInQueue.induct countMax with
  | case1 q hnone => rw [downloadNextInQueue, hnone]
  | case2 q f hsome ih =>
    rw [downloadNextInQueue, hsome, ih, map_fullPath_markFirst]

theorem queueNoDupIds_stepSync (countMax : Nat) (q : List FtpFile)
    (e : SyncEvent) (hq : queueNoDupIds q) :
    queueNoDupIds (stepSync countMax q e) := by
  cases e with
  | fileFound a f =>
    by_cases ha : a = true
    · simpa [stepSync, scannerFileFound, ha] using hq
    · have ha' : a = false := by simpa using ha
      by_cases hmem : q.any (fun other => f.equals other) = true
      · simpa [stepSync, scannerFileFound, ha', hmem] using hq
      · have hnotin : f.fullPath ∉ q.map FtpFile.fullPath := by
          intro hin
          obtain ⟨x, hx, hxeq⟩ := List.mem_map.mp hin
          refine hmem (List.any_eq_true.mpr ⟨x, hx, ?_⟩)
          simp [FtpFile.equals, hxeq]
        simp only [stepSync, scannerFileFound, ha', Bool.false_eq_true, if_false,
          hmem, if_neg]
        unfold queueNoDupIds
        rw [map_fullPath_downloadNextInQueue]
        simp only [List.map_append, List.map_cons, List.map_nil]
        rw [List.nodup_append]
        exact ⟨hq, List.nodup_singleton _, by simpa using hnotin⟩
  | downloadDone err f =>
    unfold stepSync downloadDone queueNoDupIds
    rw [map_fullPath_downloadNextInQueue]
    exact hq.sublist ((List.filter_sublist q).map FtpFile.fullPath)

/-- C4: (a) starting from the empty queue, after any sequence of
orchestrator events the download queue never holds two entries with the
same identity; (b) a discovered file equal (by identity) to an
already-queued file leaves the queue untouched — it is not appended. -/
theorem download_queue_no_duplicates :
    ∀ (countMax : Nat) (events : List SyncEvent) (a : Bool) (f : FtpFile)
      (q : List FtpFile),
      queueNoDupIds (runSync countMax events) ∧
      ((∃ x ∈ q, f.equals x = true) → scannerFileFound countMax a f q = q) := by
  intro countMax events a f q
  constructor
  · have : ∀ (evs : List SyncEvent) (q₀ : List FtpFile), queueNoDupIds q₀ →
        queueNoDupIds (evs.foldl (stepSync countMax) q₀) := by
      intro evs
      induction evs with
      | nil => intro q₀ h; simpa using h
      | cons e rest ih =>
        intro q₀ h
        simp only [List.foldl_cons]
        exact ih _ (queueNoDupIds_stepSync countMax q₀ e h)
    exact this events [] (by simp [queueNoDupIds])
  · intro ⟨x, hx, hxeq⟩
    have hany : q.any (fun other => f.equals other) = true :=
      List.any_eq_true.mpr ⟨x, hx, hxeq⟩
    by_cases ha : a = true
    · simp [scannerFileFound, ha]
    · have ha' : a = false := by simpa using ha
      simp [scannerFileFound, ha', hany]

/-- Witness for C4: re-discovering a file that differs from a queued one
only in `targetData` (same identity) leaves the queue unchanged. -/
theorem download_queue_no_duplicates_witness :
    scannerFileFound 2 false
        { sampleSymlink with targetData := some ⟨"episode 01.avi", 700⟩ }
        [{ sampleSymlink with downloading := true }] =
      [{ sampleSymlink with downloading := true }] :=
  (download_queue_no_duplicates 2 [] false
    { sampleSymlink with targetData := some ⟨"episode 01.avi", 700⟩ }
    [{ sampleSymlink with downloading := true }]).2
    ⟨{ sampleSymlink with downloading := true }, by simp, by decide⟩

/-! ## Theorems: destination resolution -/

theorem getDestinationDirectoryGo_eq_find (remoteDirectory : String) :
    ∀ pathMappings : List PathMapping,
      getDestinationDirectoryGo pathMappings remoteDirectory =
        (pathMappings.find?
            (fun m => strStartsWith remoteDirectory (FtpFile.appendSlash m.remotePath))).map
          (fun m => FtpFile.appendSlash m.localPath ++
            sanitizeFtpPath
              (strDrop remoteDirectory (strLength (FtpFile.appendSlash m.remotePath)))) := by
  intro pathMappings
  induction pathMappings with
  | nil => rfl
  | cons m rest ih =>
    by_cases hm : strStartsWith remoteDirectory (FtpFile.appendSlash m.remotePath) = true
    · simp [getDestinationDirectoryGo, List.find?, hm]
    · have hm' : strStartsWith remoteDirectory (FtpFile.appendSlash m.remotePath) = false := by
        simpa using hm
      simp [getDestinationDirectoryGo, List.find?, hm', ih]

/-- C8: the code's destination resolution agrees with the spec's
description (first matching mapping wins, producing the local prefix
plus the stripped-and-sanitized remainder; default root otherwise), and
reproduces the spec's two worked examples: with mapping
`/tv → /dest/tv` and default root `/dest/default`, relative directory
`/tv/showA/` resolves to `/dest/tv/showA/` and `/movies/` to
`/dest/default/movies/`. -/
theorem getDestinationDirectory_correct :
    (∀ (pathMappings : List PathMapping) (localSyncRoot : String) (file : FtpFile),
      getDestinationDirectory pathMappings localSyncRoot file =
        getDestinationDirectorySpec pathMappings localSyncRoot file) ∧
    getDestinationDirectory [⟨"/tv", "/dest/tv"⟩] "/dest/default"
        ⟨"/base", "/tv/showA/", "e.avi", true, none, false⟩ = "/dest/tv/showA/" ∧
    getDestinationDirectory [⟨"/tv", "/dest/tv"⟩] "/dest/default"
        ⟨"/base", "/movies/", "m.avi", true, none, false⟩ =
      "/dest/default/movies/" := by
  refine ⟨?_, by decide, by decide⟩
  intro pathMappings localSyncRoot file
  rw [getDestinationDirectory, getDestinationDirectorySpec,
    getDestinationDirectoryGo_eq_find]
  cases pathMappings.find?
      (fun m => strStartsWith file.relativeDirectory (FtpFile.appendSlash m.remotePath)) with
  | none => rfl
  | some m => rfl

/-! ## Theorems: tree flattening respects the depth budget -/

theorem filter_map_shift (l : List (Nat × FtpFile)) (depth : Nat) :
    ((l.map (fun x => (x.1 + 1, x.2))).filter
        (fun x => decide (x.1 < depth))).map Prod.snd =
      (l.filter (fun x => decide (x.1 + 1 < depth))).map Prod.snd := by
  rw [List.filter_map, List.map_map]
  rfl

theorem processFilesLoop_eq (basePath : String) :
    ∀ (n : Nat) (data : List RemoteEntry), sizeOf data ≤ n →
      ∀ (depth : Nat) (rp : String) (out : List FtpFile), 0 < depth →
      processFilesLoop data basePath depth rp out =
        out ++ ((allCandidatesLoop data basePath rp).filter
          (fun x => decide (x.1 < depth))).map Prod.snd := by
  intro n
  induction n with
  | zero =>
    intro data hsize
    cases data with
    | nil => intro depth rp out _; simp [processFilesLoop, allCandidatesLoop]
    | cons e rest =>
      exfalso
      have h1 : sizeOf (e :: rest) = 1 + sizeOf e + sizeOf rest := by
        simp
      omega
  | succ n ih =>
    intro data hsize depth rp out hd
    cases data with
    | nil => simp [processFilesLoop, allCandidatesLoop]
    | cons e rest =>
      obtain ⟨name, type, children⟩ := e
      have hsz := hsize
      simp only [List.cons.sizeOf_spec, RemoteEntry.mk.sizeOf_spec] at hsz
      have hrest : sizeOf rest ≤ n := by omega
      rw [processFilesLoop.eq_def, allCandidatesLoop.eq_def]
      dsimp only
      by_cases htype : type = FTP_TYPE_SYM_LINK ∨ type = FTP_TYPE_FILE
      · rw [if_pos htype, if_pos htype]
        rw [ih rest hrest depth rp _ hd]
        simp [hd]
      · by_cases hdir : type = FTP_TYPE_DIRECTORY
        · cases children with
          | none =>
            rw [if_neg htype, if_neg htype, if_pos hdir, if_pos hdir]
            dsimp only
            rw [ih rest hrest depth rp out hd]
            simp
          | some cs =>
            have hcs : sizeOf cs ≤ n := by
              simp only [Option.some.sizeOf_spec] at hsz
              omega
            rw [if_neg htype, if_neg htype, if_pos hdir, if_pos hdir]
            dsimp only
            rw [processFilesJSON.eq_def]
            by_cases hone : depth - 1 = 0
            · rw [if_pos hone]
              rw [ih rest hrest depth rp out hd]
              have hfil : ((allCandidatesLoop cs basePath
                    (FtpFile.appendSlash (rp ++ name))).map
                      (fun x => (x.1 + 1, x.2))).filter
                    (fun x => decide (x.1 < depth)) = [] := by
                apply List.filter_eq_nil_iff.mpr
                intro x hx
                obtain ⟨y, _, rfl⟩ := List.mem_map.mp hx
                simp
                omega
              rw [List.filter_append, hfil]
              simp
            · have hone' : 0 < depth - 1 := Nat.pos_of_ne_zero hone
              rw [if_neg hone]
              rw [ih cs hcs (depth - 1) (FtpFile.appendSlash (rp ++ name)) out hone']
              rw [ih rest hrest depth rp _ hd]
              rw [List.filter_append, List.map_append, filter_map_shift]
              have hcongr : (allCandidatesLoop cs basePath
                    (FtpFile.appendSlash (rp ++ name))).filter
                      (fun x => decide (x.1 + 1 < depth)) =
                  (allCandidatesLoop cs basePath
                    (FtpFile.appendSlash (rp ++ name))).filter
                      (fun x => decide (x.1 < depth - 1)) := by
                apply List.filter_congr
                intro x _
                simp only [decide_eq_decide]
                omega
              rw [hcongr, List.append_assoc]
        · rw [if_neg htype, if_neg htype, if_neg hdir, if_neg hdir]
          rw [ih rest hrest depth rp out hd]
          simp

/-- C9: for every nested listing and every depth budget, the flattened
output is exactly the candidate files found at directory-nesting level
strictly below the budget, in traversal order: entries from directories
at or beyond the budget are absent, and flattening is a total function —
truncation returns the partial result rather than raising an error. -/
theorem processFilesJSON_depth_budget :
    ∀ (data : List RemoteEntry) (basePath : String) (depth : Nat)
      (relativePath : String),
      processFilesJSON data basePath depth relativePath [] =
        ((allCandidates data basePath relativePath).filter
          (fun x => decide (x.1 < depth))).map Prod.snd := by
  intro data basePath depth relativePath
  rw [processFilesJSON.eq_def]
  by_cases hd : depth = 0
  · subst hd
    rw [if_pos rfl]
    have : (allCandidates data basePath relativePath).filter
        (fun x => decide (x.1 < 0)) = [] := by
      apply List.filter_eq_nil_iff.mpr
      intro x _
      simp
    rw [this, List.map_nil]
  · rw [if_neg hd]
    rw [processFilesLoop_eq basePath (sizeOf data) data le_rfl depth _ []
      (Nat.pos_of_ne_zero hd)]
    rfl

end Downspout
